import Mathlib

/-!
Verification of the access-control guard of the `time-to-table` gateway
(`src/src-tauri/src/lib.rs`): the rate limiter, the path-safety validator
and the per-operation guard chain composed around the file operations.

Modelling conventions (shallow embedding of the Rust source):
* `Instant` is a `Nat` timestamp; `Duration::from_secs(1)` is the constant
  `RATE_LIMIT_WINDOW` in milliseconds.  Rust's `Instant::duration_since`
  saturates at zero, matching `Nat` subtraction.
* The `HashMap<String, Vec<Instant>>` behind the limiter is an association
  list with unique keys reached only through `lookupCalls`/`updateCalls`.
* A Rust `PathBuf` is an `FsPath`: an absoluteness flag plus the list of
  normal components (`components()` drops empty and interior `.` entries).
* A Rust content `String` / `Vec<u8>` is its byte sequence `ByteStr`
  (so `len()` is `List.length`).
* The external collaborators - `dirs::*` lookups, `canonicalize`,
  `fs::metadata`, `fs::write`, `fs::read_to_string` - are oracle fields of
  an `Env` record; the guard code is a pure function of that oracle.
* The mutex around the limiter is modelled by sequential state passing
  (the lock-poisoning branch of the source is not representable).
-/

namespace TimeToTable

/-- Rate limiting ceiling: at most 10 operations per second per command. -/
def MAX_CALLS_PER_SECOND : Nat := 10

/-- The sliding window `Duration::from_secs(1)`, in milliseconds. -/
def RATE_LIMIT_WINDOW : Nat := 1000

/-- Maximum file size: 10MB. -/
def MAX_FILE_SIZE : Nat := 10 * 1024 * 1024

/-- A Rust `String`/`Vec<u8>` payload, modelled as its byte sequence. -/
abbrev ByteStr := List Nat

/-- State of the `RateLimiter` struct: `calls: HashMap<String, Vec<Instant>>`,
modelled as an association list with unique keys. -/
structure RateLimiter where
  calls : List (String × List Nat)
deriving DecidableEq

/-- `RateLimiter::new`. -/
def RateLimiter.new : RateLimiter := ⟨[]⟩

/-- Map lookup in the association-list model of the `HashMap`. -/
def lookupCalls : List (String × List Nat) → String → Option (List Nat)
  | [], _ => none
  | (k, v) :: rest, c => if k = c then some v else lookupCalls rest c

/-- Map insert/overwrite in the association-list model of the `HashMap`. -/
def updateCalls : List (String × List Nat) → String → List Nat → List (String × List Nat)
  | [], c, v => [(c, v)]
  | (k, w) :: rest, c, v =>
    if k = c then (c, v) :: rest else (k, w) :: updateCalls rest c v

/-- Error message of a rate-limit rejection. -/
def rateLimitMsg : String := "Превышен лимит запросов. Попробуйте позже."

/-- `RateLimiter::check_rate_limit`: purge timestamps older than the window
(strictly: keep `t` with `now.duration_since(t) < RATE_LIMIT_WINDOW`), reject
when the remaining count reaches the ceiling, otherwise record `now`. -/
def check_rate_limit (rl : RateLimiter) (command : String) (now : Nat) :
    RateLimiter × Except String Unit :=
  let timestamps := (lookupCalls rl.calls command).getD []
  let purged := timestamps.filter (fun t => now - t < RATE_LIMIT_WINDOW)
  if MAX_CALLS_PER_SECOND ≤ purged.length then
    (⟨updateCalls rl.calls command purged⟩, Except.error rateLimitMsg)
  else
    (⟨updateCalls rl.calls command (purged ++ [now])⟩, Except.ok ())

/-- A parsed path (`PathBuf`): whether it is absolute, and its normal
components (`std::path::Components` with `RootDir` as the flag). -/
structure FsPath where
  absolute : Bool
  comps : List String
deriving DecidableEq

/-- `Path::parent`: drop the last component; `None` for `/` and for the
empty path. -/
def FsPath.parent (p : FsPath) : Option FsPath :=
  match p.comps with
  | [] => none
  | _ :: _ => some ⟨p.absolute, p.comps.dropLast⟩

/-- `Path::starts_with`: component-wise, never a raw string comparison. -/
def pathStarts (p base : FsPath) : Bool :=
  p.absolute == base.absolute && base.comps.isPrefixOf p.comps

/-- Split a character list at `/` separators. -/
def splitSlashAux : List Char → List Char → List String
  | [], acc => [String.mk acc.reverse]
  | ch :: cs, acc =>
    if ch = '/' then String.mk acc.reverse :: splitSlashAux cs []
    else splitSlashAux cs (ch :: acc)

/-- `PathBuf::from(&path)`: parse a path string into components, dropping
empty segments and `.` segments (except a leading `.` of a relative path),
as `std::path::Components` does. -/
def pathFromString (s : String) : FsPath :=
  let raw := (splitSlashAux s.data []).filter (fun c => c ≠ "")
  let abs : Bool :=
    match s.data with
    | '/' :: _ => true
    | _ => false
  let comps :=
    if abs then raw.filter (fun c => c ≠ ".")
    else
      match raw with
      | "." :: rest => "." :: rest.filter (fun c => c ≠ ".")
      | _ => raw.filter (fun c => c ≠ ".")
  ⟨abs, comps⟩

/-- `Path::to_string_lossy` for our parsed paths (all components valid). -/
def renderPath (p : FsPath) : String :=
  (if p.absolute then "/" else "") ++ String.intercalate "/" p.comps

/-- `Path::file_name`: the last normal component, `None` when the path ends
in `..` (or `.`) or has no components. -/
def FsPath.fileName (p : FsPath) : Option String :=
  match p.comps.getLast? with
  | none => none
  | some c => if c = ".." ∨ c = "." then none else some c

/-- The characters after the last `.` of a file name. -/
def extAfterLastDot (name : List Char) : List Char :=
  (name.reverse.takeWhile (fun ch => ch ≠ '.')).reverse

/-- `Path::extension`: `None` without a file name, `None` when the file name
has no `.` other than possibly a leading one, else the part after the final
`.`. -/
def FsPath.extension (p : FsPath) : Option String :=
  match p.fileName with
  | none => none
  | some name =>
    match name.data with
    | [] => none
    | ch :: rest =>
      let searchIn := if ch = '.' then rest else ch :: rest
      if searchIn.contains '.' then some (String.mk (extAfterLastDot name.data))
      else none

/-- `str::to_lowercase`, restricted to the ASCII range the extension
comparisons use. -/
def lowerAscii (s : String) : String := String.mk (s.data.map Char.toLower)

/-- The external collaborators of the guard, as oracles: the well-known
directory lookup (`dirs::download_dir`/`document_dir`/`desktop_dir`),
existence of a directory on the host, `Path::canonicalize`, `fs::metadata`
(its `len()`), `fs::write` and `fs::read_to_string`. -/
structure Env where
  download_dir : Option FsPath
  document_dir : Option FsPath
  desktop_dir : Option FsPath
  dirExists : FsPath → Bool
  canon : FsPath → Option FsPath
  metaLen : FsPath → Except String Nat
  writeFile : FsPath → ByteStr → Except String Unit
  readToString : FsPath → Except String ByteStr

/-- The `allowed_dirs` vector built at the top of `is_path_allowed`:
the defined well-known directories, absent ones flattened away. -/
def allowedDirs (env : Env) : List FsPath :=
  [env.download_dir, env.document_dir, env.desktop_dir].filterMap id

/-- `is_path_allowed`: canonicalize the candidate (falling back to its
parent when canonicalization fails, rejecting when there is no parent or the
parent fails too), then accept iff the canonical form starts with the
canonical form of some allowed root (roots that fail to canonicalize are
skipped). -/
def is_path_allowed (env : Env) (path : FsPath) : Bool :=
  let canonOpt : Option FsPath :=
    match env.canon path with
    | some p => some p
    | none =>
      match path.parent with
      | some par => env.canon par
      | none => none
  match canonOpt with
  | none => false
  | some canonical =>
    (allowedDirs env).any (fun dir =>
      match env.canon dir with
      | some canonical_dir => pathStarts canonical canonical_dir
      | none => false)

/-- Error message of both size checks (`format!` with `MAX_FILE_SIZE` in MB). -/
def sizeErrMsg : String :=
  "Размер файла превышает максимальный (" ++ toString (MAX_FILE_SIZE / 1024 / 1024) ++ " МБ)"

/-- Error message for a path without an extension. -/
def missingExtMsg : String := "Файл должен иметь расширение"

/-- Error message of the text-write extension check. -/
def textExtMsg : String := "Разрешена запись только .json и .xml файлов"

/-- Error message of the binary-write extension check. -/
def binExtMsg : String := "Разрешена запись только .xlsx файлов через эту команду"

/-- Error message of the read extension check. -/
def readExtMsg : String := "Разрешено чтение только .json и .xml файлов"

/-- Error message of the write containment check. -/
def saveDirMsg : String := "Сохранение разрешено только в папки: Загрузки, Документы или Рабочий стол"

/-- Error message of the read containment check. -/
def readDirMsg : String := "Чтение разрешено только из папок: Загрузки, Документы или Рабочий стол"

/-- `save_file_secure`: rate limit, content-size check, `.json`/`.xml`
extension check, containment check, then `fs::write`. -/
def save_file_secure (env : Env) (rl : RateLimiter) (now : Nat)
    (path : String) (content : ByteStr) : RateLimiter × Except String String :=
  match check_rate_limit rl "save_file_secure" now with
  | (rl', Except.error e) => (rl', Except.error e)
  | (rl', Except.ok _) =>
    if MAX_FILE_SIZE < content.length then
      (rl', Except.error sizeErrMsg)
    else
      let path_buf := pathFromString path
      match path_buf.extension with
      | some ext =>
        let ext_str := lowerAscii ext
        if ext_str ≠ "json" ∧ ext_str ≠ "xml" then
          (rl', Except.error textExtMsg)
        else if ¬ is_path_allowed env path_buf then
          (rl', Except.error saveDirMsg)
        else
          match env.writeFile path_buf content with
          | Except.ok _ => (rl', Except.ok path)
          | Except.error e => (rl', Except.error ("Ошибка записи: " ++ e))
      | none => (rl', Except.error missingExtMsg)

/-- `save_file_binary`: rate limit, content-size check, `.xlsx` extension
check, containment check, then `fs::write`. -/
def save_file_binary (env : Env) (rl : RateLimiter) (now : Nat)
    (path : String) (content : ByteStr) : RateLimiter × Except String String :=
  match check_rate_limit rl "save_file_binary" now with
  | (rl', Except.error e) => (rl', Except.error e)
  | (rl', Except.ok _) =>
    if MAX_FILE_SIZE < content.length then
      (rl', Except.error sizeErrMsg)
    else
      let path_buf := pathFromString path
      match path_buf.extension with
      | some ext =>
        let ext_str := lowerAscii ext
        if ext_str ≠ "xlsx" then
          (rl', Except.error binExtMsg)
        else if ¬ is_path_allowed env path_buf then
          (rl', Except.error saveDirMsg)
        else
          match env.writeFile path_buf content with
          | Except.ok _ => (rl', Except.ok path)
          | Except.error e => (rl', Except.error ("Ошибка записи: " ++ e))
      | none => (rl', Except.error missingExtMsg)

/-- `read_file_secure`: rate limit, `.json`/`.xml` extension check,
containment check, metadata size check, then `fs::read_to_string`. -/
def read_file_secure (env : Env) (rl : RateLimiter) (now : Nat)
    (path : String) : RateLimiter × Except String ByteStr :=
  match check_rate_limit rl "read_file_secure" now with
  | (rl', Except.error e) => (rl', Except.error e)
  | (rl', Except.ok _) =>
    let path_buf := pathFromString path
    match path_buf.extension with
    | some ext =>
      let ext_str := lowerAscii ext
      if ext_str ≠ "json" ∧ ext_str ≠ "xml" then
        (rl', Except.error readExtMsg)
      else if ¬ is_path_allowed env path_buf then
        (rl', Except.error readDirMsg)
      else
        match env.metaLen path_buf with
        | Except.error e =>
          (rl', Except.error ("Ошибка получения информации о файле: " ++ e))
        | Except.ok len =>
          if MAX_FILE_SIZE < len then
            (rl', Except.error sizeErrMsg)
          else
            match env.readToString path_buf with
            | Except.ok s => (rl', Except.ok s)
            | Except.error e => (rl', Except.error ("Ошибка чтения: " ++ e))
    | none => (rl', Except.error missingExtMsg)

/-- `get_allowed_dirs`: the defined well-known directories rendered as
strings, with no guard stages at all. -/
def get_allowed_dirs (env : Env) : List String :=
  (allowedDirs env).map renderPath

/-- Running a sequence of `check_rate_limit` calls for one command at given
times, collecting each admit/reject verdict. -/
def runChecks (rl : RateLimiter) (c : String) : List Nat → RateLimiter × List Bool
  | [] => (rl, [])
  | t :: ts =>
    let r := check_rate_limit rl c t
    let rest := runChecks r.1 c ts
    (rest.1, (match r.2 with | Except.ok _ => true | Except.error _ => false) :: rest.2)

/-- The limiter state reached from `RateLimiter::new` by a sequence of
checks (arbitrary commands and times): the reachable states of the
process-wide singleton. -/
def stepOps (ops : List (String × Nat)) : RateLimiter :=
  ops.foldl (fun rl p => (check_rate_limit rl p.1 p.2).1) RateLimiter.new

/-- The call log for a command after the lazy purge at time `now`. -/
def purgedLog (rl : RateLimiter) (c : String) (now : Nat) : List Nat :=
  ((lookupCalls rl.calls c).getD []).filter (fun t => now - t < RATE_LIMIT_WINDOW)

/-- The invariant every reachable limiter state keeps: no command's log
exceeds the ceiling. -/
def BoundedLog (rl : RateLimiter) : Prop :=
  ∀ c, ((lookupCalls rl.calls c).getD []).length ≤ MAX_CALLS_PER_SECOND

/-- Raw string comparison of rendered paths: the naive check the guard must
never rely on. -/
def rawStrPre (base s : String) : Bool := base.data.isPrefixOf s.data

/-- A host where `/home/user/Downloads` is the only defined well-known
directory and every path canonicalizes to itself (no symlinks, everything
exists). -/
def envSibling : Env :=
  { download_dir := some ⟨true, ["home", "user", "Downloads"]⟩
    document_dir := none
    desktop_dir := none
    dirExists := fun _ => true
    canon := fun p => some p
    metaLen := fun _ => Except.ok 0
    writeFile := fun _ _ => Except.ok ()
    readToString := fun _ => Except.ok [] }

/-- The file `/home/user/Downloads/new.json` that does not exist yet. -/
def newFilePath : FsPath := ⟨true, ["home", "user", "Downloads", "new.json"]⟩

/-- A host like `envSibling` except that `newFilePath` does not exist, so
only its canonicalization fails. -/
def envNewFile : Env :=
  { download_dir := some ⟨true, ["home", "user", "Downloads"]⟩
    document_dir := none
    desktop_dir := none
    dirExists := fun _ => true
    canon := fun p => if p = newFilePath then none else some p
    metaLen := fun _ => Except.ok 0
    writeFile := fun _ _ => Except.ok ()
    readToString := fun _ => Except.ok [] }

/-- A host where no well-known directory is defined at all. -/
def envNoRoots : Env :=
  { download_dir := none
    document_dir := none
    desktop_dir := none
    dirExists := fun _ => false
    canon := fun p => some p
    metaLen := fun _ => Except.ok 0
    writeFile := fun _ _ => Except.ok ()
    readToString := fun _ => Except.ok [] }

/-- Like `envSibling`, but every file reports a metadata size one byte over
the limit. -/
def envBigFile : Env :=
  { download_dir := some ⟨true, ["home", "user", "Downloads"]⟩
    document_dir := none
    desktop_dir := none
    dirExists := fun _ => true
    canon := fun p => some p
    metaLen := fun _ => Except.ok (MAX_FILE_SIZE + 1)
    writeFile := fun _ _ => Except.ok ()
    readToString := fun _ => Except.ok [] }

/-! ### Association-list lemmas for the call log -/

theorem lookupCalls_updateCalls_self (m : List (String × List Nat)) (c : String)
    (v : List Nat) : lookupCalls (updateCalls m c v) c = some v := by
  induction m with
  | nil => simp [updateCalls, lookupCalls]
  | cons kv rest ih =>
    obtain ⟨k, w⟩ := kv
    by_cases h : k = c
    · simp [updateCalls, h, lookupCalls]
    · simp [updateCalls, h, lookupCalls, ih]

theorem lookupCalls_updateCalls_other (m : List (String × List Nat)) (c d : String)
    (v : List Nat) (h : d ≠ c) :
    lookupCalls (updateCalls m c v) d = lookupCalls m d := by
  induction m with
  | nil =>
    simp only [updateCalls, lookupCalls]
    rw [if_neg (fun hh => h hh.symm)]
  | cons kv rest ih =>
    obtain ⟨k, w⟩ := kv
    by_cases hk : k = c
    · subst hk
      have hkd : ¬ k = d := fun hh => h hh.symm
      simp only [updateCalls, if_pos rfl, lookupCalls]
      rw [if_neg hkd, if_neg hkd]
    · simp [updateCalls, hk, lookupCalls, ih]

theorem updateCalls_lookup_self (m : List (String × List Nat)) (c : String)
    (v : List Nat) (h : lookupCalls m c = some v) : updateCalls m c v = m := by
  induction m with
  | nil => simp [lookupCalls] at h
  | cons kv rest ih =>
    obtain ⟨k, w⟩ := kv
    by_cases hk : k = c
    · subst hk
      simp [lookupCalls] at h
      simp [updateCalls, h]
    · simp [lookupCalls, hk] at h
      simp [updateCalls, hk, ih h]

theorem filter_eq_of_le_length {α : Type} (p : α → Bool) :
    ∀ l : List α, l.length ≤ (l.filter p).length → l.filter p = l := by
  intro l
  induction l with
  | nil => simp
  | cons a l ih =>
    intro h
    by_cases hp : p a
    · simp only [List.filter_cons_of_pos hp, List.length_cons] at h ⊢
      rw [ih (Nat.le_of_succ_le_succ h)]
    · exfalso
      simp only [List.filter_cons_of_neg hp, List.length_cons] at h
      exact absurd (Nat.le_trans h (List.length_filter_le p l)) (by omega)

/-! ### Rate-limiter lemmas -/

theorem check_rate_limit_pass (rl : RateLimiter) (c : String) (now : Nat)
    (h : (purgedLog rl c now).length < MAX_CALLS_PER_SECOND) :
    check_rate_limit rl c now =
      (⟨updateCalls rl.calls c (purgedLog rl c now ++ [now])⟩, Except.ok ()) := by
  simp only [check_rate_limit, purgedLog] at h ⊢
  rw [if_neg (Nat.not_le.mpr h)]

theorem check_rate_limit_reject (rl : RateLimiter) (c : String) (now : Nat)
    (h : MAX_CALLS_PER_SECOND ≤ (purgedLog rl c now).length) :
    check_rate_limit rl c now =
      (⟨updateCalls rl.calls c (purgedLog rl c now)⟩, Except.error rateLimitMsg) := by
  simp only [check_rate_limit, purgedLog] at h ⊢
  rw [if_pos h]

theorem boundedLog_new : BoundedLog RateLimiter.new := by
  intro c
  simp [RateLimiter.new, lookupCalls]

theorem purgedLog_length_le (rl : RateLimiter) (c : String) (now : Nat) :
    (purgedLog rl c now).length ≤ ((lookupCalls rl.calls c).getD []).length :=
  List.length_filter_le _ _

theorem boundedLog_check (rl : RateLimiter) (h : BoundedLog rl) (c : String)
    (now : Nat) : BoundedLog (check_rate_limit rl c now).1 := by
  by_cases hc : (purgedLog rl c now).length < MAX_CALLS_PER_SECOND
  · rw [check_rate_limit_pass rl c now hc]
    intro d
    by_cases hd : d = c
    · subst hd
      simp only [lookupCalls_updateCalls_self, Option.getD_some, List.length_append,
        List.length_cons, List.length_nil]
      omega
    · simpa [lookupCalls_updateCalls_other rl.calls c d _ hd] using h d
  · rw [check_rate_limit_reject rl c now (Nat.le_of_not_lt hc)]
    intro d
    by_cases hd : d = c
    · subst hd
      simp only [lookupCalls_updateCalls_self, Option.getD_some]
      exact Nat.le_trans (purgedLog_length_le rl d now) (h d)
    · simpa [lookupCalls_updateCalls_other rl.calls c d _ hd] using h d

theorem boundedLog_stepOps (ops : List (String × Nat)) : BoundedLog (stepOps ops) := by
  have key : ∀ (l : List (String × Nat)) (rl : RateLimiter), BoundedLog rl →
      BoundedLog (l.foldl (fun rl p => (check_rate_limit rl p.1 p.2).1) rl) := by
    intro l
    induction l with
    | nil => intro rl h; exact h
    | cons a l ih =>
      intro rl h
      exact ih _ (boundedLog_check rl h a.1 a.2)
  exact key ops RateLimiter.new boundedLog_new

/-- A rejected check leaves a bounded limiter state untouched: the purge can
have removed nothing (otherwise the remaining count would be under the
ceiling) and no timestamp is pushed. -/
theorem reject_state_eq (rl : RateLimiter) (c : String) (now : Nat) (e : String)
    (hb : BoundedLog rl) (he : (check_rate_limit rl c now).2 = Except.error e) :
    (check_rate_limit rl c now).1 = rl := by
  by_cases hc : (purgedLog rl c now).length < MAX_CALLS_PER_SECOND
  · rw [check_rate_limit_pass rl c now hc] at he
    simp at he
  · have hge := Nat.le_of_not_lt hc
    rw [check_rate_limit_reject rl c now hge]
    have hlenle : ((lookupCalls rl.calls c).getD []).length ≤
        (purgedLog rl c now).length := Nat.le_trans (hb c) hge
    have hfil : purgedLog rl c now = (lookupCalls rl.calls c).getD [] :=
      filter_eq_of_le_length _ _ hlenle
    have hsome : lookupCalls rl.calls c = some ((lookupCalls rl.calls c).getD []) := by
      cases hl : lookupCalls rl.calls c with
      | none =>
        exfalso
        rw [purgedLog, hl] at hge
        simp [MAX_CALLS_PER_SECOND] at hge
      | some v => simp
    rw [hfil, updateCalls_lookup_self _ _ _ hsome]

theorem runChecks_append (rl : RateLimiter) (c : String) (l₁ l₂ : List Nat) :
    runChecks rl c (l₁ ++ l₂) =
      ((runChecks (runChecks rl c l₁).1 c l₂).1,
        (runChecks rl c l₁).2 ++ (runChecks (runChecks rl c l₁).1 c l₂).2) := by
  induction l₁ generalizing rl with
  | nil => simp [runChecks]
  | cons t ts ih => simp [runChecks, ih]

/-- As long as the already-stored log plus the remaining calls fit under the
ceiling, and every call time is within the window of every involved
timestamp, each successive check is admitted and the log accumulates the
call times in order. -/
theorem runChecks_admits (c : String) :
    ∀ (suf : List Nat) (rl : RateLimiter),
      ((lookupCalls rl.calls c).getD []).length + suf.length ≤ MAX_CALLS_PER_SECOND →
      (∀ x, (x ∈ (lookupCalls rl.calls c).getD [] ∨ x ∈ suf) →
        ∀ y ∈ suf, y - x < RATE_LIMIT_WINDOW) →
      (runChecks rl c suf).2 = List.replicate suf.length true
      ∧ (lookupCalls (runChecks rl c suf).1.calls c).getD []
          = (lookupCalls rl.calls c).getD [] ++ suf
      ∧ ∀ d, d ≠ c →
          lookupCalls (runChecks rl c suf).1.calls d = lookupCalls rl.calls d := by
  intro suf
  induction suf with
  | nil =>
    intro rl _ _
    refine ⟨rfl, by simp [runChecks], fun d _ => rfl⟩
  | cons t ts ih =>
    intro rl hlen hwin
    have hkeep : purgedLog rl c t = (lookupCalls rl.calls c).getD [] := by
      rw [purgedLog]
      refine List.filter_eq_self.mpr ?_
      intro a ha
      exact decide_eq_true (hwin a (Or.inl ha) t (List.mem_cons_self t ts))
    have hlt : (purgedLog rl c t).length < MAX_CALLS_PER_SECOND := by
      rw [hkeep]
      simp only [List.length_cons] at hlen
      omega
    have hstep := check_rate_limit_pass rl c t hlt
    rw [hkeep] at hstep
    set rl' : RateLimiter :=
      ⟨updateCalls rl.calls c ((lookupCalls rl.calls c).getD [] ++ [t])⟩ with hrl'
    have hlook : (lookupCalls rl'.calls c).getD []
        = (lookupCalls rl.calls c).getD [] ++ [t] := by
      rw [hrl']
      simp [lookupCalls_updateCalls_self]
    have hih := ih rl'
      (by
        rw [hlook]
        simp only [List.length_append, List.length_cons, List.length_nil] at hlen ⊢
        omega)
      (by
        intro x hx y hy
        rw [hlook] at hx
        rcases hx with hx | hx
        · rcases List.mem_append.mp hx with hx' | hx'
          · exact hwin x (Or.inl hx') y (List.mem_cons_of_mem t hy)
          · have : x = t := by simpa using hx'
            subst this
            exact hwin x (Or.inr (List.mem_cons_self x ts)) y (List.mem_cons_of_mem x hy)
        · exact hwin x (Or.inr (List.mem_cons_of_mem t hx)) y (List.mem_cons_of_mem t hy))
    refine ⟨?_, ?_, ?_⟩
    · simp only [runChecks, hstep, List.length_cons, List.replicate_succ]
      exact congrArg (true :: ·) hih.1
    · simp only [runChecks, hstep]
      rw [hih.2.1, hlook, List.append_assoc]
      rfl
    · intro d hd
      simp only [runChecks, hstep]
      rw [hih.2.2 d hd, hrl', lookupCalls_updateCalls_other _ _ _ _ hd]

/-- Claim C4: for every operation name, ten rate-limit checks within one
sliding window all succeed and an eleventh check within the same window is
rejected; the budget is per operation name, so a different name still gets
admitted afterwards. -/
theorem rate_limit_ceiling (c d : String) (ts : List Nat) (tlast u : Nat)
    (hlen : ts.length = MAX_CALLS_PER_SECOND)
    (hwin : ∀ x ∈ ts ++ [tlast], ∀ y ∈ ts ++ [tlast], y - x < RATE_LIMIT_WINDOW)
    (hdc : d ≠ c) :
    (runChecks RateLimiter.new c (ts ++ [tlast])).2
        = List.replicate MAX_CALLS_PER_SECOND true ++ [false]
    ∧ (check_rate_limit (runChecks RateLimiter.new c (ts ++ [tlast])).1 d u).2
        = Except.ok () := by
  have hnew : (lookupCalls RateLimiter.new.calls c).getD [] = [] := rfl
  have hadm := runChecks_admits c ts RateLimiter.new
    (by rw [hnew]; simpa using Nat.le_of_eq hlen)
    (by
      intro x hx y hy
      refine hwin x ?_ y (List.mem_append_left _ hy)
      rcases hx with hx | hx
      · rw [hnew] at hx; cases hx
      · exact List.mem_append_left _ hx)
  have hkeep : purgedLog (runChecks RateLimiter.new c ts).1 c tlast = ts := by
    rw [purgedLog, hadm.2.1, hnew, List.nil_append]
    refine List.filter_eq_self.mpr ?_
    intro a ha
    exact decide_eq_true (hwin a (List.mem_append_left _ ha) tlast
      (List.mem_append_right _ (List.mem_singleton_self tlast)))
  have hrej := check_rate_limit_reject (runChecks RateLimiter.new c ts).1 c tlast
    (by rw [hkeep, hlen])
  have hsplit := runChecks_append RateLimiter.new c ts [tlast]
  have hlastlog : lookupCalls
      (runChecks (runChecks RateLimiter.new c ts).1 c [tlast]).1.calls d = none := by
    simp only [runChecks, hrej]
    rw [lookupCalls_updateCalls_other _ _ _ _ hdc, hadm.2.2 d hdc]
    rfl
  constructor
  · rw [hsplit]
    simp only [runChecks, hrej]
    rw [hadm.1, hlen]
  · rw [hsplit]
    have hpd : purgedLog (runChecks (runChecks RateLimiter.new c ts).1 c [tlast]).1 d u
        = [] := by
      rw [purgedLog, hlastlog]
      rfl
    rw [check_rate_limit_pass _ d u (by rw [hpd]; simp [MAX_CALLS_PER_SECOND])]

/-- Witness for C4 at a concrete run: eleven checks of `save_file_secure`
at time 0 give ten admissions then a rejection, and `read_file_secure` is
still admitted afterwards. -/
theorem rate_limit_ceiling_witness :
    (runChecks RateLimiter.new "save_file_secure"
        (List.replicate 10 0 ++ [0])).2
      = List.replicate MAX_CALLS_PER_SECOND true ++ [false]
    ∧ (check_rate_limit (runChecks RateLimiter.new "save_file_secure"
        (List.replicate 10 0 ++ [0])).1 "read_file_secure" 5).2 = Except.ok () :=
  rate_limit_ceiling "save_file_secure" "read_file_secure"
    (List.replicate 10 0) 0 5 (by decide) (by decide) (by decide)

/-- Claim C5: in any reachable limiter state, a rejected check leaves the
stored call log untouched - no timestamp is recorded for the rejected
call. -/
theorem rate_limit_reject_preserves_state (ops : List (String × Nat))
    (c : String) (now : Nat) (e : String)
    (he : (check_rate_limit (stepOps ops) c now).2 = Except.error e) :
    (check_rate_limit (stepOps ops) c now).1 = stepOps ops :=
  reject_state_eq _ c now e (boundedLog_stepOps ops) he

/-- Witness for C5: after ten admitted calls at time 0, the rejected
eleventh check returns the state unchanged. -/
theorem rate_limit_reject_preserves_state_witness :
    (check_rate_limit (stepOps (List.replicate 10 ("save_file_secure", 0)))
        "save_file_secure" 0).1
      = stepOps (List.replicate 10 ("save_file_secure", 0)) :=
  rate_limit_reject_preserves_state (List.replicate 10 ("save_file_secure", 0))
    "save_file_secure" 0 rateLimitMsg rfl

/-- Claim C10: every state reachable from `RateLimiter::new` keeps at most
`MAX_CALLS_PER_SECOND` stored timestamps per operation name, and one check
appends its timestamp exactly when the post-purge count is strictly below
the ceiling. -/
theorem call_log_bounded :
    (∀ (ops : List (String × Nat)) (c : String),
        ((lookupCalls (stepOps ops).calls c).getD []).length ≤ MAX_CALLS_PER_SECOND)
    ∧ (∀ (rl : RateLimiter) (c : String) (now : Nat),
        (lookupCalls ((check_rate_limit rl c now).1).calls c).getD []
          = if (purgedLog rl c now).length < MAX_CALLS_PER_SECOND
            then purgedLog rl c now ++ [now]
            else purgedLog rl c now) := by
  constructor
  · intro ops c
    exact boundedLog_stepOps ops c
  · intro rl c now
    by_cases hc : (purgedLog rl c now).length < MAX_CALLS_PER_SECOND
    · rw [check_rate_limit_pass rl c now hc, if_pos hc]
      simp [lookupCalls_updateCalls_self]
    · rw [check_rate_limit_reject rl c now (Nat.le_of_not_lt hc), if_neg hc]
      simp [lookupCalls_updateCalls_self]

/-! ### Path-guard lemmas -/

/-- The root scan of `is_path_allowed`, as a predicate. -/
theorem anyRoot_iff (env : Env) (cp : FsPath) :
    ((allowedDirs env).any (fun dir =>
        match env.canon dir with
        | some canonical_dir => pathStarts cp canonical_dir
        | none => false)) = true
    ↔ ∃ dir ∈ allowedDirs env, ∃ cdir, env.canon dir = some cdir ∧
        pathStarts cp cdir = true := by
  rw [List.any_eq_true]
  constructor
  · rintro ⟨dir, hdir, hf⟩
    cases hcd : env.canon dir with
    | none => rw [hcd] at hf; cases hf
    | some cd =>
      rw [hcd] at hf
      exact ⟨dir, hdir, cd, hcd, hf⟩
  · rintro ⟨dir, hdir, cd, hcd, hp⟩
    refine ⟨dir, hdir, ?_⟩
    rw [hcd]
    exact hp

theorem is_path_allowed_canon (env : Env) (p cp : FsPath)
    (h : env.canon p = some cp) :
    is_path_allowed env p = (allowedDirs env).any (fun dir =>
      match env.canon dir with
      | some canonical_dir => pathStarts cp canonical_dir
      | none => false) := by
  simp only [is_path_allowed, h]

theorem is_path_allowed_no_parent (env : Env) (p : FsPath)
    (h1 : env.canon p = none) (h2 : p.parent = none) :
    is_path_allowed env p = false := by
  simp only [is_path_allowed, h1, h2]

theorem is_path_allowed_parent_fails (env : Env) (p par : FsPath)
    (h1 : env.canon p = none) (h2 : p.parent = some par)
    (h3 : env.canon par = none) : is_path_allowed env p = false := by
  simp only [is_path_allowed, h1, h2, h3]

theorem is_path_allowed_parent_canon (env : Env) (p par cpar : FsPath)
    (h1 : env.canon p = none) (h2 : p.parent = some par)
    (h3 : env.canon par = some cpar) :
    is_path_allowed env p = (allowedDirs env).any (fun dir =>
      match env.canon dir with
      | some canonical_dir => pathStarts cpar canonical_dir
      | none => false) := by
  simp only [is_path_allowed, h1, h2, h3]

/-- A successful text write implies the containment check passed. -/
theorem save_file_secure_ok_allowed (env : Env) (rl : RateLimiter) (now : Nat)
    (path : String) (content : ByteStr) (s : String)
    (hok : (save_file_secure env rl now path content).2 = Except.ok s) :
    is_path_allowed env (pathFromString path) = true := by
  simp only [save_file_secure] at hok
  split at hok
  · simp at hok
  · split at hok
    · simp at hok
    · split at hok
      · split at hok
        · simp at hok
        · split at hok
          · simp at hok
          · next hnot => exact of_not_not hnot
      · simp at hok

/-- A successful binary write implies the containment check passed. -/
theorem save_file_binary_ok_allowed (env : Env) (rl : RateLimiter) (now : Nat)
    (path : String) (content : ByteStr) (s : String)
    (hok : (save_file_binary env rl now path content).2 = Except.ok s) :
    is_path_allowed env (pathFromString path) = true := by
  simp only [save_file_binary] at hok
  split at hok
  · simp at hok
  · split at hok
    · simp at hok
    · split at hok
      · split at hok
        · simp at hok
        · split at hok
          · simp at hok
          · next hnot => exact of_not_not hnot
      · simp at hok

/-- A successful read implies the containment check passed. -/
theorem read_file_secure_ok_allowed (env : Env) (rl : RateLimiter) (now : Nat)
    (path : String) (s : ByteStr)
    (hok : (read_file_secure env rl now path).2 = Except.ok s) :
    is_path_allowed env (pathFromString path) = true := by
  simp only [read_file_secure] at hok
  split at hok
  · simp at hok
  · split at hok
    · split at hok
      · simp at hok
      · split at hok
        · simp at hok
        · next hnot => exact of_not_not hnot
    · simp at hok

/-- Claim C1: when the candidate canonicalizes, the guard accepts it iff
its canonical form extends the canonical form of some allowed root by whole
path segments (roots whose canonicalization fails are skipped); concretely,
`/home/user/Downloads2/report.json` is rejected when `/home/user/Downloads`
is the only root even though the raw strings are in prefix relation. -/
theorem path_guard_segment_spec :
    (∀ (env : Env) (p cp : FsPath), env.canon p = some cp →
        (is_path_allowed env p = true ↔
          ∃ dir ∈ allowedDirs env, ∃ cdir, env.canon dir = some cdir ∧
            pathStarts cp cdir = true))
    ∧ is_path_allowed envSibling
        (pathFromString "/home/user/Downloads2/report.json") = false
    ∧ rawStrPre "/home/user/Downloads" "/home/user/Downloads2/report.json" = true := by
  refine ⟨?_, by decide, by decide⟩
  intro env p cp h
  rw [is_path_allowed_canon env p cp h]
  exact anyRoot_iff env cp

/-- Witness for C1: a file directly under the allowed root is accepted. -/
theorem path_guard_segment_spec_witness :
    is_path_allowed envSibling
      (pathFromString "/home/user/Downloads/report.json") = true :=
  (path_guard_segment_spec.1 envSibling
      (pathFromString "/home/user/Downloads/report.json")
      (pathFromString "/home/user/Downloads/report.json") rfl).mpr
    ⟨⟨true, ["home", "user", "Downloads"]⟩, by decide,
      ⟨true, ["home", "user", "Downloads"]⟩, rfl, by decide⟩

/-- Claim C2: when the candidate itself fails to canonicalize, the guard
falls back to the parent directory: no parent or a failing parent means
rejection, and otherwise acceptance is containment of the canonicalized
parent in some allowed root. -/
theorem path_guard_parent_fallback (env : Env) (p : FsPath)
    (hc : env.canon p = none) :
    (p.parent = none → is_path_allowed env p = false)
    ∧ (∀ par, p.parent = some par → env.canon par = none →
        is_path_allowed env p = false)
    ∧ (∀ par cpar, p.parent = some par → env.canon par = some cpar →
        (is_path_allowed env p = true ↔
          ∃ dir ∈ allowedDirs env, ∃ cdir, env.canon dir = some cdir ∧
            pathStarts cpar cdir = true)) := by
  refine ⟨?_, ?_, ?_⟩
  · intro h2
    exact is_path_allowed_no_parent env p hc h2
  · intro par h2 h3
    exact is_path_allowed_parent_fails env p par hc h2 h3
  · intro par cpar h2 h3
    rw [is_path_allowed_parent_canon env p par cpar hc h2 h3]
    exact anyRoot_iff env cpar

/-- Witness for C2: the not-yet-existing `/home/user/Downloads/new.json`
is accepted because its parent canonicalizes into the allowed root. -/
theorem path_guard_parent_fallback_witness :
    is_path_allowed envNewFile newFilePath = true :=
  ((path_guard_parent_fallback envNewFile newFilePath (by decide)).2.2
      ⟨true, ["home", "user", "Downloads"]⟩ ⟨true, ["home", "user", "Downloads"]⟩
      (by decide) (by decide)).mpr
    ⟨⟨true, ["home", "user", "Downloads"]⟩, by decide,
      ⟨true, ["home", "user", "Downloads"]⟩, by decide, by decide⟩

/-- Claim C9: when no allowed root is defined, or none of them
canonicalizes, the guard rejects every path and none of the three guarded
operations can ever succeed. -/
theorem no_valid_roots_denies (env : Env)
    (h : ∀ dir ∈ allowedDirs env, env.canon dir = none) :
    (∀ p, is_path_allowed env p = false)
    ∧ (∀ rl now path content s,
        (save_file_secure env rl now path content).2 ≠ Except.ok s)
    ∧ (∀ rl now path content s,
        (save_file_binary env rl now path content).2 ≠ Except.ok s)
    ∧ (∀ rl now path s,
        (read_file_secure env rl now path).2 ≠ Except.ok s) := by
  have hany : ∀ cp : FsPath, ((allowedDirs env).any (fun dir =>
      match env.canon dir with
      | some canonical_dir => pathStarts cp canonical_dir
      | none => false)) = false := by
    intro cp
    rw [List.any_eq_false]
    intro dir hdir
    rw [h dir hdir]
    simp
  have hall : ∀ p, is_path_allowed env p = false := by
    intro p
    cases hc : env.canon p with
    | some cp => rw [is_path_allowed_canon env p cp hc]; exact hany cp
    | none =>
      cases hp : p.parent with
      | none => exact is_path_allowed_no_parent env p hc hp
      | some par =>
        cases hcp : env.canon par with
        | none => exact is_path_allowed_parent_fails env p par hc hp hcp
        | some cpar =>
          rw [is_path_allowed_parent_canon env p par cpar hc hp hcp]
          exact hany cpar
  refine ⟨hall, ?_, ?_, ?_⟩
  · intro rl now path content s hok
    have := save_file_secure_ok_allowed env rl now path content s hok
    rw [hall (pathFromString path)] at this
    cases this
  · intro rl now path content s hok
    have := save_file_binary_ok_allowed env rl now path content s hok
    rw [hall (pathFromString path)] at this
    cases this
  · intro rl now path s hok
    have := read_file_secure_ok_allowed env rl now path s hok
    rw [hall (pathFromString path)] at this
    cases this

/-- Witness for C9: with no defined roots, even a file under the usual
downloads directory is rejected. -/
theorem no_valid_roots_denies_witness :
    is_path_allowed envNoRoots
      (pathFromString "/home/user/Downloads/report.json") = false :=
  (no_valid_roots_denies envNoRoots (by decide)).1
    (pathFromString "/home/user/Downloads/report.json")

/-- Claim C6: `get_allowed_dirs` is total (it returns a plain list), yields
at most the three well-known directories, and - given the lookup contract
that defined well-known directories exist and are absolute - every returned
string renders such a directory. -/
theorem get_allowed_dirs_spec (env : Env) :
    (get_allowed_dirs env).length ≤ 3
    ∧ (∀ s ∈ get_allowed_dirs env, ∃ dir ∈ allowedDirs env, renderPath dir = s)
    ∧ ((∀ dir ∈ allowedDirs env, env.dirExists dir = true ∧ dir.absolute = true) →
        ∀ s ∈ get_allowed_dirs env,
          ∃ dir, env.dirExists dir = true ∧ dir.absolute = true ∧
            renderPath dir = s) := by
  have hmem : ∀ s ∈ get_allowed_dirs env, ∃ dir ∈ allowedDirs env,
      renderPath dir = s := by
    intro s hs
    obtain ⟨dir, hdir, hr⟩ := List.mem_map.mp hs
    exact ⟨dir, hdir, hr⟩
  refine ⟨?_, hmem, ?_⟩
  · rw [get_allowed_dirs, List.length_map]
    rw [allowedDirs]
    cases env.download_dir <;> cases env.document_dir <;> cases env.desktop_dir <;>
      simp [List.filterMap]
  · intro hex s hs
    obtain ⟨dir, hdir, hr⟩ := hmem s hs
    exact ⟨dir, (hex dir hdir).1, (hex dir hdir).2, hr⟩

/-- Witness for C6 on the `envSibling` host: the one returned entry is the
rendering of an existing absolute directory. -/
theorem get_allowed_dirs_spec_witness :
    ∃ dir, envSibling.dirExists dir = true ∧ dir.absolute = true ∧
      renderPath dir = "/home/user/Downloads" :=
  (get_allowed_dirs_spec envSibling).2.2 (by decide) "/home/user/Downloads" (by decide)

/-! ### Error-message disambiguation for the size-check claims -/

theorem write_wrap_ne_size (e : String) :
    ("Ошибка записи: " ++ e) ≠ sizeErrMsg := by
  intro h
  cases e with
  | mk d =>
    have h2 : ("Ошибка записи: " ++ String.mk d).data.head? = sizeErrMsg.data.head? :=
      congrArg (fun s : String => s.data.head?) h
    have hl : ("Ошибка записи: " ++ String.mk d).data.head? = some 'О' := rfl
    rw [hl] at h2
    exact absurd h2 (by decide)

theorem read_wrap_ne_size (e : String) :
    ("Ошибка чтения: " ++ e) ≠ sizeErrMsg := by
  intro h
  cases e with
  | mk d =>
    have h2 : ("Ошибка чтения: " ++ String.mk d).data.head? = sizeErrMsg.data.head? :=
      congrArg (fun s : String => s.data.head?) h
    have hl : ("Ошибка чтения: " ++ String.mk d).data.head? = some 'О' := rfl
    rw [hl] at h2
    exact absurd h2 (by decide)

theorem meta_wrap_ne_size (e : String) :
    ("Ошибка получения информации о файле: " ++ e) ≠ sizeErrMsg := by
  intro h
  cases e with
  | mk d =>
    have h2 : ("Ошибка получения информации о файле: " ++ String.mk d).data.head?
        = sizeErrMsg.data.head? :=
      congrArg (fun s : String => s.data.head?) h
    have hl : ("Ошибка получения информации о файле: " ++ String.mk d).data.head?
        = some 'О' := rfl
    rw [hl] at h2
    exact absurd h2 (by decide)

/-- Claim C7: the size checks are exact at the 10 MiB boundary: content of
exactly `MAX_FILE_SIZE` bytes is never rejected for size, content one byte
larger is, and for reads the same boundary applies to the metadata size. -/
theorem size_check_boundary :
    (∀ (env : Env) (rl rl' : RateLimiter) (now : Nat) (path : String)
        (content : ByteStr),
      check_rate_limit rl "save_file_secure" now = (rl', Except.ok ()) →
      (content.length = MAX_FILE_SIZE →
        (save_file_secure env rl now path content).2 ≠ Except.error sizeErrMsg)
      ∧ (content.length = MAX_FILE_SIZE + 1 →
        (save_file_secure env rl now path content).2 = Except.error sizeErrMsg))
    ∧ (∀ (env : Env) (rl rl' : RateLimiter) (now : Nat) (path : String)
        (content : ByteStr),
      check_rate_limit rl "save_file_binary" now = (rl', Except.ok ()) →
      (content.length = MAX_FILE_SIZE →
        (save_file_binary env rl now path content).2 ≠ Except.error sizeErrMsg)
      ∧ (content.length = MAX_FILE_SIZE + 1 →
        (save_file_binary env rl now path content).2 = Except.error sizeErrMsg))
    ∧ (∀ (env : Env) (rl rl' : RateLimiter) (now : Nat) (path : String) (n : Nat),
      check_rate_limit rl "read_file_secure" now = (rl', Except.ok ()) →
      env.metaLen (pathFromString path) = Except.ok n →
      (n = MAX_FILE_SIZE →
        (read_file_secure env rl now path).2 ≠ Except.error sizeErrMsg)
      ∧ (n = MAX_FILE_SIZE + 1 →
        ∀ ext, (pathFromString path).extension = some ext →
        (lowerAscii ext = "json" ∨ lowerAscii ext = "xml") →
        is_path_allowed env (pathFromString path) = true →
        (read_file_secure env rl now path).2 = Except.error sizeErrMsg)) := by
  refine ⟨?_, ?_, ?_⟩
  · intro env rl rl' now path content hrate
    constructor
    · intro hlen hcontra
      simp only [save_file_secure, hrate, hlen] at hcontra
      rw [if_neg (by omega)] at hcontra
      split at hcontra
      · split at hcontra
        · simp at hcontra
          exact absurd hcontra (by decide)
        · split at hcontra
          · simp at hcontra
            exact absurd hcontra (by decide)
          · split at hcontra
            · simp at hcontra
            · simp at hcontra
              exact write_wrap_ne_size _ hcontra
      · simp at hcontra
        exact absurd hcontra (by decide)
    · intro hlen
      simp only [save_file_secure, hrate, hlen]
      rw [if_pos (by omega)]
  · intro env rl rl' now path content hrate
    constructor
    · intro hlen hcontra
      simp only [save_file_binary, hrate, hlen] at hcontra
      rw [if_neg (by omega)] at hcontra
      split at hcontra
      · split at hcontra
        · simp at hcontra
          exact absurd hcontra (by decide)
        · split at hcontra
          · simp at hcontra
            exact absurd hcontra (by decide)
          · split at hcontra
            · simp at hcontra
            · simp at hcontra
              exact write_wrap_ne_size _ hcontra
      · simp at hcontra
        exact absurd hcontra (by decide)
    · intro hlen
      simp only [save_file_binary, hrate, hlen]
      rw [if_pos (by omega)]
  · intro env rl rl' now path n hrate hmeta
    constructor
    · intro hn hcontra
      simp only [read_file_secure, hrate] at hcontra
      split at hcontra
      · split at hcontra
        · simp at hcontra
          exact absurd hcontra (by decide)
        · split at hcontra
          · simp at hcontra
            exact absurd hcontra (by decide)
          · rw [hmeta] at hcontra
            simp only [hn] at hcontra
            rw [if_neg (by omega)] at hcontra
            split at hcontra
            · simp at hcontra
            · simp at hcontra
              exact read_wrap_ne_size _ hcontra
      · simp at hcontra
        exact absurd hcontra (by decide)
    · intro hn ext hext hset hallow
      have hnotbad : ¬ (lowerAscii ext ≠ "json" ∧ lowerAscii ext ≠ "xml") := by
        rcases hset with h | h <;> simp [h]
      simp only [read_file_secure, hrate, hext]
      rw [if_neg hnotbad, if_neg (by rw [hallow]; simp), hmeta]
      simp [hn]

/-- Witness for C7: writing `MAX_FILE_SIZE + 1` bytes to an allowed path
with a fresh limiter fails with the size error. -/
theorem size_check_boundary_witness :
    (save_file_secure envSibling RateLimiter.new 0 "/home/user/Downloads/a.json"
        (List.replicate (MAX_FILE_SIZE + 1) 0)).2 = Except.error sizeErrMsg :=
  (size_check_boundary.1 envSibling RateLimiter.new
      ⟨[("save_file_secure", [0])]⟩ 0 "/home/user/Downloads/a.json"
      (List.replicate (MAX_FILE_SIZE + 1) 0) rfl).2 (by simp)

/-- Two strings with distinct first characters differ, whatever is appended
to the first. -/
theorem append_ne_of_head (pre e b : String) (c1 c2 : Char)
    (hpre : pre.data.head? = some c1) (hb : b.data.head? = some c2)
    (hne : c1 ≠ c2) : (pre ++ e) ≠ b := by
  cases pre with
  | mk a =>
    cases e with
    | mk d =>
      intro h
      have h2 : (a ++ d).head? = b.data.head? :=
        congrArg (fun s : String => s.data.head?) h
      rw [hb] at h2
      cases a with
      | nil => simp at hpre
      | cons x xs =>
        have hx : x = c1 := by simpa using hpre
        have hx2 : x = c2 := by simpa using h2
        exact hne (hx ▸ hx2)

/-- Claim C8: each operation's extension check is case-insensitive against
its own allowed set: a missing extension always yields the missing-extension
error, an extension whose lowercase form is outside the set yields the
disallowed-extension error, and one inside the set never produces either
extension error. -/
theorem extension_check_spec :
    (∀ (env : Env) (rl rl' : RateLimiter) (now : Nat) (path : String)
        (content : ByteStr),
      check_rate_limit rl "save_file_secure" now = (rl', Except.ok ()) →
      content.length ≤ MAX_FILE_SIZE →
      ((pathFromString path).extension = none →
        (save_file_secure env rl now path content).2 = Except.error missingExtMsg)
      ∧ (∀ ext, (pathFromString path).extension = some ext →
          (lowerAscii ext ≠ "json" ∧ lowerAscii ext ≠ "xml" →
            (save_file_secure env rl now path content).2 = Except.error textExtMsg)
          ∧ (lowerAscii ext = "json" ∨ lowerAscii ext = "xml" →
            (save_file_secure env rl now path content).2 ≠ Except.error textExtMsg
            ∧ (save_file_secure env rl now path content).2 ≠ Except.error missingExtMsg)))
    ∧ (∀ (env : Env) (rl rl' : RateLimiter) (now : Nat) (path : String)
        (content : ByteStr),
      check_rate_limit rl "save_file_binary" now = (rl', Except.ok ()) →
      content.length ≤ MAX_FILE_SIZE →
      ((pathFromString path).extension = none →
        (save_file_binary env rl now path content).2 = Except.error missingExtMsg)
      ∧ (∀ ext, (pathFromString path).extension = some ext →
          (lowerAscii ext ≠ "xlsx" →
            (save_file_binary env rl now path content).2 = Except.error binExtMsg)
          ∧ (lowerAscii ext = "xlsx" →
            (save_file_binary env rl now path content).2 ≠ Except.error binExtMsg
            ∧ (save_file_binary env rl now path content).2 ≠ Except.error missingExtMsg)))
    ∧ (∀ (env : Env) (rl rl' : RateLimiter) (now : Nat) (path : String),
      check_rate_limit rl "read_file_secure" now = (rl', Except.ok ()) →
      ((pathFromString path).extension = none →
        (read_file_secure env rl now path).2 = Except.error missingExtMsg)
      ∧ (∀ ext, (pathFromString path).extension = some ext →
          (lowerAscii ext ≠ "json" ∧ lowerAscii ext ≠ "xml" →
            (read_file_secure env rl now path).2 = Except.error readExtMsg)
          ∧ (lowerAscii ext = "json" ∨ lowerAscii ext = "xml" →
            (read_file_secure env rl now path).2 ≠ Except.error readExtMsg
            ∧ (read_file_secure env rl now path).2 ≠ Except.error missingExtMsg))) := by
  refine ⟨?_, ?_, ?_⟩
  · intro env rl rl' now path content hrate hlen
    have hsz : ¬ MAX_FILE_SIZE < content.length := Nat.not_lt.mpr hlen
    constructor
    · intro hext
      simp only [save_file_secure, hrate, hext]
      rw [if_neg hsz]
    · intro ext hext
      constructor
      · intro hbad
        simp only [save_file_secure, hrate, hext]
        rw [if_neg hsz, if_pos hbad]
      · intro hgood
        have hnotbad : ¬ (lowerAscii ext ≠ "json" ∧ lowerAscii ext ≠ "xml") := by
          rcases hgood with h | h <;> simp [h]
        constructor <;> intro hcontra <;>
          simp only [save_file_secure, hrate, hext] at hcontra <;>
          rw [if_neg hsz, if_neg hnotbad] at hcontra <;>
          split at hcontra
        · simp at hcontra
          exact absurd hcontra (by decide)
        · split at hcontra
          · simp at hcontra
          · simp at hcontra
            exact append_ne_of_head "Ошибка записи: " _ textExtMsg 'О' 'Р'
              rfl rfl (by decide) hcontra
        · simp at hcontra
          exact absurd hcontra (by decide)
        · split at hcontra
          · simp at hcontra
          · simp at hcontra
            exact append_ne_of_head "Ошибка записи: " _ missingExtMsg 'О' 'Ф'
              rfl rfl (by decide) hcontra
  · intro env rl rl' now path content hrate hlen
    have hsz : ¬ MAX_FILE_SIZE < content.length := Nat.not_lt.mpr hlen
    constructor
    · intro hext
      simp only [save_file_binary, hrate, hext]
      rw [if_neg hsz]
    · intro ext hext
      constructor
      · intro hbad
        simp only [save_file_binary, hrate, hext]
        rw [if_neg hsz, if_pos hbad]
      · intro hgood
        have hnotbad : ¬ lowerAscii ext ≠ "xlsx" := by simp [hgood]
        constructor <;> intro hcontra <;>
          simp only [save_file_binary, hrate, hext] at hcontra <;>
          rw [if_neg hsz, if_neg hnotbad] at hcontra <;>
          split at hcontra
        · simp at hcontra
          exact absurd hcontra (by decide)
        · split at hcontra
          · simp at hcontra
          · simp at hcontra
            exact append_ne_of_head "Ошибка записи: " _ binExtMsg 'О' 'Р'
              rfl rfl (by decide) hcontra
        · simp at hcontra
          exact absurd hcontra (by decide)
        · split at hcontra
          · simp at hcontra
          · simp at hcontra
            exact append_ne_of_head "Ошибка записи: " _ missingExtMsg 'О' 'Ф'
              rfl rfl (by decide) hcontra
  · intro env rl rl' now path hrate
    constructor
    · intro hext
      simp only [read_file_secure, hrate, hext]
    · intro ext hext
      constructor
      · intro hbad
        simp only [read_file_secure, hrate, hext]
        rw [if_pos hbad]
      · intro hgood
        have hnotbad : ¬ (lowerAscii ext ≠ "json" ∧ lowerAscii ext ≠ "xml") := by
          rcases hgood with h | h <;> simp [h]
        constructor <;> intro hcontra <;>
          simp only [read_file_secure, hrate, hext] at hcontra <;>
          rw [if_neg hnotbad] at hcontra <;>
          split at hcontra
        · simp at hcontra
          exact absurd hcontra (by decide)
        · split at hcontra
          · simp at hcontra
            exact append_ne_of_head "Ошибка получения информации о файле: " _
              readExtMsg 'О' 'Р' rfl rfl (by decide) hcontra
          · split at hcontra
            · simp at hcontra
              exact absurd hcontra (by decide)
            · split at hcontra
              · simp at hcontra
              · simp at hcontra
                exact append_ne_of_head "Ошибка чтения: " _ readExtMsg 'О' 'Р'
                  rfl rfl (by decide) hcontra
        · simp at hcontra
          exact absurd hcontra (by decide)
        · split at hcontra
          · simp at hcontra
            exact append_ne_of_head "Ошибка получения информации о файле: " _
              missingExtMsg 'О' 'Ф' rfl rfl (by decide) hcontra
          · split at hcontra
            · simp at hcontra
              exact absurd hcontra (by decide)
            · split at hcontra
              · simp at hcontra
              · simp at hcontra
                exact append_ne_of_head "Ошибка чтения: " _ missingExtMsg 'О' 'Ф'
                  rfl rfl (by decide) hcontra

/-- Witness for C8: a text write to a `.xlsx` path fails with the
disallowed-extension error. -/
theorem extension_check_spec_witness :
    (save_file_secure envSibling RateLimiter.new 0 "/home/user/Downloads/t.xlsx"
        [1]).2 = Except.error textExtMsg :=
  (((extension_check_spec.1 envSibling RateLimiter.new
      ⟨[("save_file_secure", [0])]⟩ 0 "/home/user/Downloads/t.xlsx" [1]
      rfl (by decide)).2 "xlsx" rfl).1 (by decide))

/-- Counterexample to claim C3 as stated: in `read_file_secure` the size
check does NOT run second. Reading `/home/user/Downloads/data.xlsx` whose
metadata size exceeds the limit returns the extension error, not the size
error a rate-size-extension-path order would produce. -/
theorem guard_chain_order_cex :
    (read_file_secure envBigFile RateLimiter.new 0
        "/home/user/Downloads/data.xlsx").2 = Except.error readExtMsg
    ∧ envBigFile.metaLen (pathFromString "/home/user/Downloads/data.xlsx")
        = Except.ok (MAX_FILE_SIZE + 1)
    ∧ readExtMsg ≠ sizeErrMsg :=
  ⟨rfl, rfl, by decide⟩

/-- Amended claim C3: the two write operations run rate-limit check, then
size check, then extension check, then containment check, then the write;
`read_file_secure` runs rate-limit check, then extension check, then
containment check, then the metadata fetch and its size check, then the
read. In all operations each failing stage aborts the call with its own
error and later stages never run. -/
theorem guard_chain_order (env : Env) (rl rl' : RateLimiter) (now : Nat)
    (path : String) (content : ByteStr) :
    ((∀ e, check_rate_limit rl "save_file_secure" now = (rl', Except.error e) →
        save_file_secure env rl now path content = (rl', Except.error e))
    ∧ (check_rate_limit rl "save_file_secure" now = (rl', Except.ok ()) →
        (MAX_FILE_SIZE < content.length →
          save_file_secure env rl now path content = (rl', Except.error sizeErrMsg))
        ∧ (content.length ≤ MAX_FILE_SIZE →
            ((pathFromString path).extension = none →
              save_file_secure env rl now path content
                = (rl', Except.error missingExtMsg))
            ∧ (∀ ext, (pathFromString path).extension = some ext →
                (lowerAscii ext ≠ "json" ∧ lowerAscii ext ≠ "xml" →
                  save_file_secure env rl now path content
                    = (rl', Except.error textExtMsg))
                ∧ (¬ (lowerAscii ext ≠ "json" ∧ lowerAscii ext ≠ "xml") →
                    (is_path_allowed env (pathFromString path) = false →
                      save_file_secure env rl now path content
                        = (rl', Except.error saveDirMsg))
                    ∧ (is_path_allowed env (pathFromString path) = true →
                        (∀ u : Unit,
                          env.writeFile (pathFromString path) content = Except.ok u →
                          save_file_secure env rl now path content
                            = (rl', Except.ok path))
                        ∧ (∀ e,
                            env.writeFile (pathFromString path) content
                              = Except.error e →
                            save_file_secure env rl now path content
                              = (rl', Except.error ("Ошибка записи: " ++ e)))))))))
    ∧ ((∀ e, check_rate_limit rl "save_file_binary" now = (rl', Except.error e) →
        save_file_binary env rl now path content = (rl', Except.error e))
    ∧ (check_rate_limit rl "save_file_binary" now = (rl', Except.ok ()) →
        (MAX_FILE_SIZE < content.length →
          save_file_binary env rl now path content = (rl', Except.error sizeErrMsg))
        ∧ (content.length ≤ MAX_FILE_SIZE →
            ((pathFromString path).extension = none →
              save_file_binary env rl now path content
                = (rl', Except.error missingExtMsg))
            ∧ (∀ ext, (pathFromString path).extension = some ext →
                (lowerAscii ext ≠ "xlsx" →
                  save_file_binary env rl now path content
                    = (rl', Except.error binExtMsg))
                ∧ (lowerAscii ext = "xlsx" →
                    (is_path_allowed env (pathFromString path) = false →
                      save_file_binary env rl now path content
                        = (rl', Except.error saveDirMsg))
                    ∧ (is_path_allowed env (pathFromString path) = true →
                        (∀ u : Unit,
                          env.writeFile (pathFromString path) content = Except.ok u →
                          save_file_binary env rl now path content
                            = (rl', Except.ok path))
                        ∧ (∀ e,
                            env.writeFile (pathFromString path) content
                              = Except.error e →
                            save_file_binary env rl now path content
                              = (rl', Except.error ("Ошибка записи: " ++ e)))))))))
    ∧ ((∀ e, check_rate_limit rl "read_file_secure" now = (rl', Except.error e) →
        read_file_secure env rl now path = (rl', Except.error e))
    ∧ (check_rate_limit rl "read_file_secure" now = (rl', Except.ok ()) →
        ((pathFromString path).extension = none →
          read_file_secure env rl now path = (rl', Except.error missingExtMsg))
        ∧ (∀ ext, (pathFromString path).extension = some ext →
            (lowerAscii ext ≠ "json" ∧ lowerAscii ext ≠ "xml" →
              read_file_secure env rl now path = (rl', Except.error readExtMsg))
            ∧ (¬ (lowerAscii ext ≠ "json" ∧ lowerAscii ext ≠ "xml") →
                (is_path_allowed env (pathFromString path) = false →
                  read_file_secure env rl now path = (rl', Except.error readDirMsg))
                ∧ (is_path_allowed env (pathFromString path) = true →
                    (∀ e, env.metaLen (pathFromString path) = Except.error e →
                      read_file_secure env rl now path
                        = (rl', Except.error
                            ("Ошибка получения информации о файле: " ++ e)))
                    ∧ (∀ n, env.metaLen (pathFromString path) = Except.ok n →
                        (MAX_FILE_SIZE < n →
                          read_file_secure env rl now path
                            = (rl', Except.error sizeErrMsg))
                        ∧ (n ≤ MAX_FILE_SIZE →
                            (∀ s, env.readToString (pathFromString path)
                                = Except.ok s →
                              read_file_secure env rl now path = (rl', Except.ok s))
                            ∧ (∀ e, env.readToString (pathFromString path)
                                = Except.error e →
                              read_file_secure env rl now path
                                = (rl', Except.error ("Ошибка чтения: " ++ e)))))))))) := by
  refine ⟨⟨?_, ?_⟩, ⟨?_, ?_⟩, ?_, ?_⟩
  · intro e hrate
    simp only [save_file_secure, hrate]
  · intro hrate
    refine ⟨?_, ?_⟩
    · intro hbig
      simp only [save_file_secure, hrate]
      rw [if_pos hbig]
    · intro hlen
      have hsz : ¬ MAX_FILE_SIZE < content.length := Nat.not_lt.mpr hlen
      refine ⟨?_, ?_⟩
      · intro hext
        simp only [save_file_secure, hrate, hext]
        rw [if_neg hsz]
      · intro ext hext
        refine ⟨?_, ?_⟩
        · intro hbad
          simp only [save_file_secure, hrate, hext]
          rw [if_neg hsz, if_pos hbad]
        · intro hnotbad
          refine ⟨?_, ?_⟩
          · intro hallow
            simp only [save_file_secure, hrate, hext]
            rw [if_neg hsz, if_neg hnotbad, if_pos (by simp [hallow])]
          · intro hallow
            refine ⟨?_, ?_⟩
            · intro u hw
              simp only [save_file_secure, hrate, hext, hw]
              rw [if_neg hsz, if_neg hnotbad, if_neg (by simp [hallow])]
            · intro e hw
              simp only [save_file_secure, hrate, hext, hw]
              rw [if_neg hsz, if_neg hnotbad, if_neg (by simp [hallow])]
  · intro e hrate
    simp only [save_file_binary, hrate]
  · intro hrate
    refine ⟨?_, ?_⟩
    · intro hbig
      simp only [save_file_binary, hrate]
      rw [if_pos hbig]
    · intro hlen
      have hsz : ¬ MAX_FILE_SIZE < content.length := Nat.not_lt.mpr hlen
      refine ⟨?_, ?_⟩
      · intro hext
        simp only [save_file_binary, hrate, hext]
        rw [if_neg hsz]
      · intro ext hext
        refine ⟨?_, ?_⟩
        · intro hbad
          simp only [save_file_binary, hrate, hext]
          rw [if_neg hsz, if_pos hbad]
        · intro hxlsx
          have hnotbad : ¬ lowerAscii ext ≠ "xlsx" := by simp [hxlsx]
          refine ⟨?_, ?_⟩
          · intro hallow
            simp only [save_file_binary, hrate, hext]
            rw [if_neg hsz, if_neg hnotbad, if_pos (by simp [hallow])]
          · intro hallow
            refine ⟨?_, ?_⟩
            · intro u hw
              simp only [save_file_binary, hrate, hext, hw]
              rw [if_neg hsz, if_neg hnotbad, if_neg (by simp [hallow])]
            · intro e hw
              simp only [save_file_binary, hrate, hext, hw]
              rw [if_neg hsz, if_neg hnotbad, if_neg (by simp [hallow])]
  · intro e hrate
    simp only [read_file_secure, hrate]
  · intro hrate
    refine ⟨?_, ?_⟩
    · intro hext
      simp only [read_file_secure, hrate, hext]
    · intro ext hext
      refine ⟨?_, ?_⟩
      · intro hbad
        simp only [read_file_secure, hrate, hext]
        rw [if_pos hbad]
      · intro hnotbad
        refine ⟨?_, ?_⟩
        · intro hallow
          simp only [read_file_secure, hrate, hext]
          rw [if_neg hnotbad, if_pos (by simp [hallow])]
        · intro hallow
          refine ⟨?_, ?_⟩
          · intro e hmeta
            simp only [read_file_secure, hrate, hext, hmeta]
            rw [if_neg hnotbad, if_neg (by simp [hallow])]
          · intro n hmeta
            refine ⟨?_, ?_⟩
            · intro hbig
              simp only [read_file_secure, hrate, hext, hmeta]
              rw [if_neg hnotbad, if_neg (by simp [hallow]), if_pos hbig]
            · intro hfit
              have hsz : ¬ MAX_FILE_SIZE < n := Nat.not_lt.mpr hfit
              refine ⟨?_, ?_⟩
              · intro s hrd
                simp only [read_file_secure, hrate, hext, hmeta, hrd]
                rw [if_neg hnotbad, if_neg (by simp [hallow]), if_neg hsz]
              · intro e hrd
                simp only [read_file_secure, hrate, hext, hmeta, hrd]
                rw [if_neg hnotbad, if_neg (by simp [hallow]), if_neg hsz]

/-- Witness for the amended C3: with all stages passing, the text write
returns the path and the limiter state with the one recorded call. -/
theorem guard_chain_order_witness :
    save_file_secure envSibling RateLimiter.new 0 "/home/user/Downloads/a.json" [1]
      = (⟨[("save_file_secure", [0])]⟩, Except.ok "/home/user/Downloads/a.json") :=
  ((((((guard_chain_order envSibling RateLimiter.new ⟨[("save_file_secure", [0])]⟩
      0 "/home/user/Downloads/a.json" [1]).1.2 rfl).2 (by decide)).2
      "json" rfl).2 (by decide)).2 (by decide)).1 () rfl

end TimeToTable
